import Mathlib

/-!
Verification of the control-flow-graph builder of PythonAnalyzer (src/main.py).

The core under study is `generate_cfg`: it parses Python source into an `ast`
tree, then iterates `ast.walk(tree)` (CPython's breadth-first traversal that
yields every node exactly once), dispatching on the node's class:

  * `ast.FunctionDef`: declare a node labeled `Function: {name}`, then for each
    immediate body statement declare a node labeled `Statement: {ast.dump(stmt)}`
    and an edge from the function node to it;
  * `ast.If`: declare `If Condition: {ast.dump(node.test)}`, then
    `Statement: …` children for the then-body and `Else Statement: …`
    children for the else-body, each with an edge from the conditional node;
  * `ast.While`: declare `While Loop: {ast.dump(node.test)}` plus
    `Statement: …` children of the body with edges;
  * `ast.For`: declare `For Loop: {ast.dump(node.target)}` plus
    `Statement: …` children of the body with edges;
  * every other node class is skipped.

Node identity keys are `str(id(node))`: the decimal rendering of the syntax
node's per-run object identity.  The graphviz `Digraph` object accumulates
node and edge statements in call order; re-declaring a node id keeps a single
rendered node whose attributes are the last declaration's.

The embedding below mirrors this: statements are an inductive type carrying an
`ident : Nat` field that models `id(node)` (distinct live objects have
distinct identities); expressions only matter through their `ast.dump` text,
so they are modelled as that text.  `walk` is the breadth-first enumeration,
`Digraph` the ordered statement lists, and `generate_cfg` the dispatch fold.
-/

namespace PyCFG

/-- A Python expression as the CFG builder sees it: only its `ast.dump`
rendering is ever consulted (for `If.test`, `While.test`, `For.target`),
so the model carries exactly that text. -/
structure Expr where
  dump : String
deriving DecidableEq, Repr

/-- Python statements, keeping the `ast` class names the builder dispatches
on.  `ident` models the CPython object identity `id(node)`.  Statement
classes other than the four constructs are collapsed into `Other`, which
keeps its `ast.dump` head text and its list of child statements (e.g. the
bodies of `Try`, `With`, `ClassDef`); expression children are transparent
to the walk and contain no statements, so they are not represented. -/
inductive Stmt where
  | FunctionDef (ident : Nat) (name : String) (body : List Stmt)
  | If (ident : Nat) (test : Expr) (body : List Stmt) (orelse : List Stmt)
  | While (ident : Nat) (test : Expr) (body : List Stmt) (orelse : List Stmt)
  | For (ident : Nat) (target : Expr) (iter : Expr) (body : List Stmt) (orelse : List Stmt)
  | Other (ident : Nat) (head : String) (kids : List Stmt)
deriving Repr

/-- Object identity of a statement node, modelling `id(node)`. -/
def Stmt.ident : Stmt → Nat
  | .FunctionDef i _ _ => i
  | .If i _ _ _ => i
  | .While i _ _ _ => i
  | .For i _ _ _ _ => i
  | .Other i _ _ => i

/-- The statement children enumerated by `ast.iter_child_nodes` (expression
children omitted: they never contain statements). -/
def Stmt.children : Stmt → List Stmt
  | .FunctionDef _ _ body => body
  | .If _ _ body orelse => body ++ orelse
  | .While _ _ body orelse => body ++ orelse
  | .For _ _ _ body orelse => body ++ orelse
  | .Other _ _ kids => kids

/-- Whether the builder's dispatch matches this node class. -/
def Stmt.isConstruct : Stmt → Bool
  | .FunctionDef _ _ _ => true
  | .If _ _ _ _ => true
  | .While _ _ _ _ => true
  | .For _ _ _ _ _ => true
  | .Other _ _ _ => false

mutual
/-- Node count of the subtree rooted at a statement. -/
def Stmt.size : Stmt → Nat
  | .FunctionDef _ _ body => 1 + sizeL body
  | .If _ _ body orelse => 1 + sizeL body + sizeL orelse
  | .While _ _ body orelse => 1 + sizeL body + sizeL orelse
  | .For _ _ _ body orelse => 1 + sizeL body + sizeL orelse
  | .Other _ _ kids => 1 + sizeL kids

/-- Total node count of a statement forest. -/
def sizeL : List Stmt → Nat
  | [] => 0
  | s :: rest => Stmt.size s + sizeL rest
end

mutual
/-- The `ast.dump` rendering of a statement: a lossless textual dump built
from the node's class, fields and recursively dumped children.  Object
identities never appear in it. -/
def Stmt.dump : Stmt → String
  | .FunctionDef _ name body =>
      "FunctionDef(name=" ++ name ++ ", body=[" ++ dumpL body ++ "])"
  | .If _ test body orelse =>
      "If(test=" ++ test.dump ++ ", body=[" ++ dumpL body ++ "], orelse=[" ++ dumpL orelse ++ "])"
  | .While _ test body orelse =>
      "While(test=" ++ test.dump ++ ", body=[" ++ dumpL body ++ "], orelse=[" ++ dumpL orelse ++ "])"
  | .For _ target iter body orelse =>
      "For(target=" ++ target.dump ++ ", iter=" ++ iter.dump ++ ", body=[" ++ dumpL body
        ++ "], orelse=[" ++ dumpL orelse ++ "])"
  | .Other _ head kids => head ++ "(" ++ dumpL kids ++ ")"

/-- Comma-separated dumps of a statement list. -/
def dumpL : List Stmt → String
  | [] => ""
  | [s] => Stmt.dump s
  | s :: rest => Stmt.dump s ++ ", " ++ dumpL rest
end

/-- `sizeL` distributes over append. -/
theorem sizeL_append (l₁ l₂ : List Stmt) : sizeL (l₁ ++ l₂) = sizeL l₁ + sizeL l₂ := by
  induction l₁ with
  | nil => simp [sizeL]
  | cons s rest ih => simp [sizeL, ih]; omega

/-- A node's subtree strictly contains its children's subtrees. -/
theorem sizeL_children (s : Stmt) : sizeL s.children + 1 = s.size := by
  cases s <;> simp [Stmt.children, Stmt.size, sizeL_append] <;> omega

/-- Flattening one breadth-first level strictly shrinks total size. -/
theorem sizeL_flatMap_children (l : List Stmt) :
    sizeL (l.flatMap Stmt.children) + l.length = sizeL l := by
  induction l with
  | nil => simp [sizeL]
  | cons s rest ih =>
      simp only [List.flatMap_cons, sizeL_append, sizeL, List.length_cons]
      have := sizeL_children s
      omega

/-- Every statement has positive size. -/
theorem Stmt.size_pos (s : Stmt) : 1 ≤ s.size := by
  cases s <;> simp [Stmt.size] <;> omega

/-- Only the empty forest has size zero. -/
theorem sizeL_eq_zero {l : List Stmt} (h : sizeL l = 0) : l = [] := by
  cases l with
  | nil => rfl
  | cons s rest => have := Stmt.size_pos s; simp [sizeL] at h; omega

/-- Fuelled breadth-first enumeration; the fuel only bounds the level count
and is irrelevant once it reaches the forest's total size
(`walkAux_congr`). -/
def walkAux (fuel : Nat) (l : List Stmt) : List Stmt :=
  match fuel, l with
  | _, [] => []
  | 0, _ :: _ => []
  | fuel + 1, s :: rest => (s :: rest) ++ walkAux fuel ((s :: rest).flatMap Stmt.children)

/-- Fuel irrelevance: any fuel at least the total size gives the same walk. -/
theorem walkAux_congr :
    ∀ (f₁ f₂ : Nat) (l : List Stmt), sizeL l ≤ f₁ → sizeL l ≤ f₂ →
      walkAux f₁ l = walkAux f₂ l := by
  intro f₁
  induction f₁ with
  | zero =>
      intro f₂ l h₁ _
      have : l = [] := sizeL_eq_zero (Nat.le_zero.mp h₁)
      subst this
      cases f₂ <;> rfl
  | succ f₁ ih =>
      intro f₂ l h₁ h₂
      cases l with
      | nil => cases f₂ <;> rfl
      | cons s rest =>
          cases f₂ with
          | zero =>
              have : Stmt.size s + sizeL rest = 0 := Nat.le_zero.mp h₂
              have := Stmt.size_pos s
              omega
          | succ f₂ =>
              simp only [walkAux]
              congr 1
              have hs := sizeL_flatMap_children (s :: rest)
              simp only [List.length_cons] at hs
              exact ih f₂ _ (by omega) (by omega)

/-- CPython's `ast.walk`: a breadth-first enumeration of every node of the
forest, level by level, each node exactly once (the queue-based generator
yields exactly this level-concatenated order). -/
def walk (l : List Stmt) : List Stmt := walkAux (sizeL l) l

/-- The graphviz `Digraph` as the builder uses it: ordered lists of node
statements `(id, label)` and edge statements `(source id, target id)`. -/
structure Digraph where
  nodes : List (String × String)
  edges : List (String × String)
deriving DecidableEq, Repr

/-- `dot.node(node_id, label)`: append a node statement. -/
def Digraph.node (d : Digraph) (node_id label : String) : Digraph :=
  { d with nodes := d.nodes ++ [(node_id, label)] }

/-- `dot.edge(a, b)`: append a directed edge statement. -/
def Digraph.edge (d : Digraph) (a b : String) : Digraph :=
  { d with edges := d.edges ++ [(a, b)] }

/-- `add_cfg_node`: declare a node keyed by the decimal rendering of the
syntax node's object identity (`str(id(node))`) and return that key. -/
def add_cfg_node (dot : Digraph) (node : Stmt) (label : String) : Digraph × String :=
  let node_id := Nat.repr node.ident
  (dot.node node_id label, node_id)

/-- One `for stmt in node.body` loop of the builder: for each statement,
declare a child node labeled with the given marker text followed by the
statement's dump, and an edge from the construct's node to it. -/
def addBody (dot : Digraph) (src_node : String) (marker : String) : List Stmt → Digraph
  | [] => dot
  | stmt :: rest =>
      let p := add_cfg_node dot stmt (marker ++ Stmt.dump stmt)
      addBody ((p.1).edge src_node p.2) src_node marker rest

/-- The dispatch body of `generate_cfg`'s walk loop for one visited node. -/
def processNode (dot : Digraph) (node : Stmt) : Digraph :=
  match node with
  | .FunctionDef _ name body =>
      let p := add_cfg_node dot node ("Function: " ++ name)
      addBody p.1 p.2 "Statement: " body
  | .If _ test body orelse =>
      let p := add_cfg_node dot node ("If Condition: " ++ test.dump)
      let d := addBody p.1 p.2 "Statement: " body
      addBody d p.2 "Else Statement: " orelse
  | .While _ test body _ =>
      let p := add_cfg_node dot node ("While Loop: " ++ test.dump)
      addBody p.1 p.2 "Statement: " body
  | .For _ target _ body _ =>
      let p := add_cfg_node dot node ("For Loop: " ++ target.dump)
      addBody p.1 p.2 "Statement: " body
  | .Other _ _ _ => dot

/-- `generate_cfg`: walk the parsed tree breadth-first and apply the dispatch
to every visited node, starting from an empty graph.  The argument is the
module's statement list (the `ast.Module` root itself matches no dispatch
arm and is transparent). -/
def generate_cfg (tree : List Stmt) : Digraph :=
  (walk tree).foldl processNode { nodes := [], edges := [] }

/-! ## Normal form of the builder's output

Because the graphviz object only ever accumulates appended statements, the
final graph is the concatenation, in walk order, of each visited node's own
contribution.  The contributions are computed by `nodeDecls` and `edgeDecls`
below, and `generate_cfg_spec` establishes the decomposition. -/

/-- The statements a dispatch arm draws edges to: the body (plus, for `If`,
the else-branch).  `While`/`For` else-branches and all children of
non-construct statements get no edges. -/
def Stmt.cfgChildren : Stmt → List Stmt
  | .FunctionDef _ _ body => body
  | .If _ _ body orelse => body ++ orelse
  | .While _ _ body _ => body
  | .For _ _ _ body _ => body
  | .Other _ _ _ => []

/-- The construct's own label, as the dispatch arm declares it. -/
def ownLabel : Stmt → Option String
  | .FunctionDef _ name _ => some ("Function: " ++ name)
  | .If _ test _ _ => some ("If Condition: " ++ test.dump)
  | .While _ test _ _ => some ("While Loop: " ++ test.dump)
  | .For _ target _ _ _ => some ("For Loop: " ++ target.dump)
  | .Other _ _ _ => none

/-- Node statements contributed when the walk visits one node. -/
def nodeDecls : Stmt → List (String × String)
  | .FunctionDef i name body =>
      (Nat.repr i, "Function: " ++ name)
        :: body.map (fun s => (Nat.repr s.ident, "Statement: " ++ s.dump))
  | .If i test body orelse =>
      (Nat.repr i, "If Condition: " ++ test.dump)
        :: (body.map (fun s => (Nat.repr s.ident, "Statement: " ++ s.dump))
            ++ orelse.map (fun s => (Nat.repr s.ident, "Else Statement: " ++ s.dump)))
  | .While i test body _ =>
      (Nat.repr i, "While Loop: " ++ test.dump)
        :: body.map (fun s => (Nat.repr s.ident, "Statement: " ++ s.dump))
  | .For i target _ body _ =>
      (Nat.repr i, "For Loop: " ++ target.dump)
        :: body.map (fun s => (Nat.repr s.ident, "Statement: " ++ s.dump))
  | .Other _ _ _ => []

/-- Edge statements contributed when the walk visits one node. -/
def edgeDecls (s : Stmt) : List (String × String) :=
  s.cfgChildren.map (fun c => (Nat.repr s.ident, Nat.repr c.ident))

/-- Unfolding one body loop: it appends one node and one edge statement per
body statement, in order. -/
theorem addBody_spec (dot : Digraph) (src marker : String) (body : List Stmt) :
    addBody dot src marker body =
      { nodes := dot.nodes ++ body.map (fun s => (Nat.repr s.ident, marker ++ s.dump)),
        edges := dot.edges ++ body.map (fun s => (src, Nat.repr s.ident)) } := by
  induction body generalizing dot with
  | nil => simp [addBody]
  | cons s rest ih =>
      simp [addBody, add_cfg_node, Digraph.node, Digraph.edge, ih]

/-- One dispatch step appends exactly the visited node's contributions. -/
theorem processNode_spec (dot : Digraph) (s : Stmt) :
    processNode dot s =
      { nodes := dot.nodes ++ nodeDecls s, edges := dot.edges ++ edgeDecls s } := by
  cases s <;>
    simp [processNode, add_cfg_node, Digraph.node, Digraph.edge, addBody_spec,
      nodeDecls, edgeDecls, Stmt.cfgChildren, Stmt.ident]

/-- Folding the dispatch over a node list appends all contributions in order. -/
theorem foldl_processNode_spec (l : List Stmt) (dot : Digraph) :
    l.foldl processNode dot =
      { nodes := dot.nodes ++ l.flatMap nodeDecls,
        edges := dot.edges ++ l.flatMap edgeDecls } := by
  induction l generalizing dot with
  | nil => simp
  | cons s rest ih => simp [processNode_spec, ih]

/-- Normal form of the builder's output: node and edge statement lists are
the concatenated per-node contributions in walk order. -/
theorem generate_cfg_spec (tree : List Stmt) :
    generate_cfg tree =
      { nodes := (walk tree).flatMap nodeDecls,
        edges := (walk tree).flatMap edgeDecls } := by
  simp [generate_cfg, foldl_processNode_spec]

/-! ## Walk lemmas -/

/-- The empty forest walks to the empty enumeration. -/
theorem walk_nil : walk [] = [] := rfl

/-- The one-step unfolding of the breadth-first walk, valid for every list. -/
theorem walk_unfold (l : List Stmt) :
    walk l = l ++ walk (l.flatMap Stmt.children) := by
  cases l with
  | nil => rfl
  | cons s rest =>
      show walkAux (sizeL (s :: rest)) (s :: rest) = _
      have hpos := Stmt.size_pos s
      have hs := sizeL_flatMap_children (s :: rest)
      simp only [List.length_cons] at hs
      obtain ⟨f, hf⟩ : ∃ f, sizeL (s :: rest) = f + 1 :=
        ⟨sizeL (s :: rest) - 1, by simp [sizeL]; omega⟩
      rw [hf]
      simp only [walkAux]
      congr 1
      exact walkAux_congr f _ _ (by omega) le_rfl

/-- Every root is visited. -/
theorem self_subset_walk {l : List Stmt} {s : Stmt} (h : s ∈ l) : s ∈ walk l := by
  rw [walk_unfold]; exact List.mem_append_left _ h

/-- The walk is closed under taking children. -/
theorem mem_walk_children :
    ∀ (n : Nat) (l : List Stmt), sizeL l ≤ n →
      ∀ s ∈ walk l, ∀ c ∈ s.children, c ∈ walk l := by
  intro n
  induction n with
  | zero =>
      intro l hl s hs c _
      have : l = [] := sizeL_eq_zero (Nat.le_zero.mp hl)
      subst this
      rw [walk_nil] at hs; cases hs
  | succ n ih =>
      intro l hl s hs c hc
      cases l with
      | nil => rw [walk_nil] at hs; cases hs
      | cons a rest =>
          rw [walk_unfold] at hs ⊢
          rcases List.mem_append.mp hs with hsl | hsw
          · refine List.mem_append_right _ (self_subset_walk ?_)
            exact List.mem_flatMap.mpr ⟨s, hsl, hc⟩
          · have hsz : sizeL ((a :: rest).flatMap Stmt.children) ≤ n := by
              have h₁ := sizeL_flatMap_children (a :: rest)
              simp only [List.length_cons] at h₁
              omega
            exact List.mem_append_right _ (ih _ hsz s hsw c hc)

/-! ## Injectivity of the node key rendering

The node key is `str(id(node))`, embedded as `Nat.repr`.  Distinct object
identities therefore give distinct keys; this is proved by parsing the
decimal rendering back. -/

/-- Decimal digit list of a natural number, most significant digit first;
the structural counterpart of core's fuelled `Nat.toDigitsCore`. -/
def decDigits (n : Nat) : List Char :=
  if _h : n < 10 then [Nat.digitChar n]
  else decDigits (n / 10) ++ [Nat.digitChar (n % 10)]
termination_by n
decreasing_by
  exact Nat.div_lt_self (by omega) (by omega)

/-- Core's fuelled digit accumulator agrees with `decDigits` when fuelled
adequately. -/
theorem toDigitsCore_eq_decDigits (fuel : Nat) :
    ∀ (n : Nat) (acc : List Char), n < fuel →
      Nat.toDigitsCore 10 fuel n acc = decDigits n ++ acc := by
  induction fuel with
  | zero => intro n acc h; omega
  | succ fuel ih =>
      intro n acc h
      rw [Nat.toDigitsCore]
      by_cases h10 : n / 10 = 0
      · have hn : n < 10 := by omega
        rw [decDigits]
        simp [h10, hn, Nat.mod_eq_of_lt hn]
      · have hge : 10 ≤ n := by
          by_contra hc
          exact h10 (Nat.div_eq_of_lt (by omega))
        have hlt : n / 10 < fuel :=
          Nat.lt_of_lt_of_le (Nat.div_lt_self (by omega) (by omega)) (by omega)
        simp only [h10, if_false]
        rw [ih (n / 10) _ hlt]
        conv_rhs => rw [decDigits]
        simp [Nat.not_lt.mpr hge]

/-- Numeric value of a decimal digit character. -/
def digVal (c : Char) : Nat := c.toNat - 48

/-- Digit characters round-trip through their value. -/
theorem digVal_digitChar : ∀ d < 10, digVal (Nat.digitChar d) = d := by decide

/-- Value of a most-significant-first digit list. -/
def parseVal (l : List Char) : Nat := l.foldl (fun a c => 10 * a + digVal c) 0

/-- Parsing inverts digit production. -/
theorem parseVal_decDigits (n : Nat) : parseVal (decDigits n) = n := by
  induction n using Nat.strong_induction_on with
  | _ n ih =>
      rw [decDigits]
      by_cases h : n < 10
      · simp [h, parseVal, List.foldl, digVal_digitChar n h]
      · have hpos : 0 < n := by omega
        have hdiv : n / 10 < n := Nat.div_lt_self hpos (by omega)
        simp only [h, dif_neg, not_false_iff]
        show parseVal (decDigits (n / 10) ++ [Nat.digitChar (n % 10)]) = n
        unfold parseVal
        rw [List.foldl_append]
        have hmod : n % 10 < 10 := Nat.mod_lt _ (by omega)
        show 10 * parseVal (decDigits (n / 10)) + digVal (Nat.digitChar (n % 10)) = n
        rw [ih (n / 10) hdiv, digVal_digitChar _ hmod]
        omega

/-- The fuelled digit list of core's `Nat.toDigits` equals `decDigits`. -/
theorem toDigits_eq_decDigits (n : Nat) : Nat.toDigits 10 n = decDigits n := by
  rw [Nat.toDigits, toDigitsCore_eq_decDigits (n + 1) n [] (Nat.lt_succ_self n),
    List.append_nil]

/-- The decimal key rendering is injective: distinct object identities give
distinct node keys. -/
theorem repr_inj {m n : Nat} (h : Nat.repr m = Nat.repr n) : m = n := by
  have hd : Nat.toDigits 10 m = Nat.toDigits 10 n := by
    have h₂ := congrArg String.data h
    simpa [Nat.repr, List.asString] using h₂
  rw [toDigits_eq_decDigits, toDigits_eq_decDigits] at hd
  calc m = parseVal (decDigits m) := (parseVal_decDigits m).symm
    _ = parseVal (decDigits n) := by rw [hd]
    _ = n := parseVal_decDigits n

/-! ## Construct-free subtrees -/

mutual
/-- The subtree contains no function definition, conditional or loop:
its root is a non-construct statement and so is every descendant. -/
def Stmt.constructFree : Stmt → Bool
  | .Other _ _ kids => constructFreeL kids
  | _ => false

/-- Every statement of the forest is construct-free. -/
def constructFreeL : List Stmt → Bool
  | [] => true
  | s :: rest => s.constructFree && constructFreeL rest
end

/-- Membership in a construct-free forest. -/
theorem constructFree_of_mem {l : List Stmt} (h : constructFreeL l = true)
    {s : Stmt} (hs : s ∈ l) : s.constructFree = true := by
  induction l with
  | nil => cases hs
  | cons a rest ih =>
      rw [constructFreeL, Bool.and_eq_true] at h
      rcases List.mem_cons.mp hs with rfl | hmem
      · exact h.1
      · exact ih h.2 hmem

/-- A construct-free forest splits. -/
theorem constructFreeL_append {l₁ l₂ : List Stmt} :
    constructFreeL (l₁ ++ l₂) = (constructFreeL l₁ && constructFreeL l₂) := by
  induction l₁ with
  | nil => simp [constructFreeL]
  | cons a rest ih => simp [constructFreeL, ih, Bool.and_assoc]

/-- Children of a construct-free statement form a construct-free forest. -/
theorem constructFree_children {s : Stmt} (h : s.constructFree = true) :
    constructFreeL s.children = true := by
  cases s with
  | Other i hd kids => exact h
  | FunctionDef i n b => exact absurd h (by simp [Stmt.constructFree])
  | If i t b o => exact absurd h (by simp [Stmt.constructFree])
  | While i t b o => exact absurd h (by simp [Stmt.constructFree])
  | For i t it b o => exact absurd h (by simp [Stmt.constructFree])

/-- One breadth-first level of a construct-free forest is construct-free. -/
theorem constructFreeL_flatMap {l : List Stmt} (h : constructFreeL l = true) :
    constructFreeL (l.flatMap Stmt.children) = true := by
  induction l with
  | nil => simp [constructFreeL]
  | cons a rest ih =>
      rw [constructFreeL, Bool.and_eq_true] at h
      simp only [List.flatMap_cons, constructFreeL_append, Bool.and_eq_true]
      exact ⟨constructFree_children h.1, ih h.2⟩

/-- Every node walked in a construct-free forest is construct-free. -/
theorem walk_constructFree :
    ∀ (n : Nat) (l : List Stmt), sizeL l ≤ n → constructFreeL l = true →
      ∀ s ∈ walk l, s.constructFree = true := by
  intro n
  induction n with
  | zero =>
      intro l hl _ s hs
      have : l = [] := sizeL_eq_zero (Nat.le_zero.mp hl)
      subst this
      rw [walk_nil] at hs; cases hs
  | succ n ih =>
      intro l hl hcf s hs
      cases l with
      | nil => rw [walk_nil] at hs; cases hs
      | cons a rest =>
          rw [walk_unfold] at hs
          rcases List.mem_append.mp hs with hsl | hsw
          · exact constructFree_of_mem hcf hsl
          · have hsz : sizeL ((a :: rest).flatMap Stmt.children) ≤ n := by
              have h₁ := sizeL_flatMap_children (a :: rest)
              simp only [List.length_cons] at h₁
              omega
            exact ih _ hsz (constructFreeL_flatMap hcf) s hsw

/-- Non-construct statements contribute nothing to the graph. -/
theorem decls_of_constructFree {s : Stmt} (h : s.constructFree = true) :
    nodeDecls s = [] ∧ edgeDecls s = [] := by
  cases s with
  | Other i hd kids => exact ⟨rfl, rfl⟩
  | FunctionDef i n b => exact absurd h (by simp [Stmt.constructFree])
  | If i t b o => exact absurd h (by simp [Stmt.constructFree])
  | While i t b o => exact absurd h (by simp [Stmt.constructFree])
  | For i t it b o => exact absurd h (by simp [Stmt.constructFree])

/-- A construct-free forest produces an entirely empty graph contribution. -/
theorem walk_decls_nil {l : List Stmt} (h : constructFreeL l = true) :
    (walk l).flatMap nodeDecls = [] ∧ (walk l).flatMap edgeDecls = [] := by
  have hall := walk_constructFree (sizeL l) l le_rfl h
  constructor <;>
    · rw [List.flatMap_eq_nil_iff]
      intro s hs
      rcases decls_of_constructFree (hall s hs) with ⟨h₁, h₂⟩
      simp [h₁, h₂]

/-! ## Counting helpers -/

/-- A construct's contribution is one node per construct plus one per
drawn-to child; non-constructs contribute nothing. -/
theorem nodeDecls_length (s : Stmt) :
    (nodeDecls s).length = if s.isConstruct then 1 + s.cfgChildren.length else 0 := by
  cases s <;> simp [nodeDecls, Stmt.isConstruct, Stmt.cfgChildren] <;> omega

/-- Total node declarations equal the per-construct count formula. -/
theorem sum_nodeDecls_lengths (l : List Stmt) :
    (l.map (fun s => (nodeDecls s).length)).sum =
      ((l.filter (fun s => s.isConstruct)).map (fun s => 1 + s.cfgChildren.length)).sum := by
  induction l with
  | nil => rfl
  | cons s rest ih =>
      rw [List.map_cons, List.sum_cons, ih, List.filter_cons]
      by_cases h : s.isConstruct = true <;> simp [h, nodeDecls_length]

/-- Specialisation of the normal form to a one-statement module. -/
theorem generate_cfg_singleton (s : Stmt) :
    generate_cfg [s] =
      { nodes := nodeDecls s ++ (walk s.children).flatMap nodeDecls,
        edges := edgeDecls s ++ (walk s.children).flatMap edgeDecls } := by
  rw [generate_cfg_spec, walk_unfold]
  simp

/-- Else-branch labels can never coincide with then-branch labels: the two
marker texts differ at the first character. -/
theorem else_marker_ne (a b : String) :
    ("Else Statement: " ++ a) ≠ ("Statement: " ++ b) := by
  intro h
  have h₂ : (some 'E' : Option Char) = some 'S' :=
    congrArg (fun t : String => t.data.head?) h
  exact absurd h₂ (by decide)

/-! ## Claims -/

/-- Claim C1: every function definition, conditional, while-loop and for-loop
reached by the full walk contributes exactly one node declaration plus one per
immediate body statement (else-branch included); in particular a module with
exactly one top-level function whose `N`-statement body holds no nested
constructs yields exactly `1 + N` nodes and `N` edges, all originating from
the function's node. -/
theorem claim_C1 (i : Nat) (name : String) (body : List Stmt)
    (hbody : constructFreeL body = true) :
    (∀ m : List Stmt,
      (generate_cfg m).nodes.length =
        (((walk m).filter (fun s => s.isConstruct)).map
          (fun s => 1 + s.cfgChildren.length)).sum) ∧
    (generate_cfg [Stmt.FunctionDef i name body]).nodes.length = 1 + body.length ∧
    (generate_cfg [Stmt.FunctionDef i name body]).edges.length = body.length ∧
    ∀ e ∈ (generate_cfg [Stmt.FunctionDef i name body]).edges, e.1 = Nat.repr i := by
  have hgen : ∀ m : List Stmt,
      (generate_cfg m).nodes.length =
        (((walk m).filter (fun s => s.isConstruct)).map
          (fun s => 1 + s.cfgChildren.length)).sum := by
    intro m
    rw [generate_cfg_spec]
    show ((walk m).flatMap nodeDecls).length = _
    rw [List.length_flatMap]
    simpa [Function.comp_def] using sum_nodeDecls_lengths (walk m)
  have hsingle := generate_cfg_singleton (Stmt.FunctionDef i name body)
  have hnil := walk_decls_nil (l := (Stmt.FunctionDef i name body).children) hbody
  refine ⟨hgen, ?_, ?_, ?_⟩
  · rw [hsingle]
    simp [hnil.1, nodeDecls]
    omega
  · rw [hsingle]
    simp [hnil.2, edgeDecls, Stmt.cfgChildren]
  · intro e he
    rw [hsingle] at he
    simp only [hnil.2, List.append_nil] at he
    rcases List.mem_map.mp he with ⟨c, _, rfl⟩
    rfl

/-- Claim C1 witness: a function with two plain body statements gives three
nodes and two edges from the function's node. -/
theorem claim_C1_witness :
    constructFreeL [Stmt.Other 11 "Pass" [], Stmt.Other 12 "Return(value=None)" []] = true ∧
    (generate_cfg [Stmt.FunctionDef 10 "f"
        [Stmt.Other 11 "Pass" [], Stmt.Other 12 "Return(value=None)" []]]).nodes.length = 3 ∧
    (generate_cfg [Stmt.FunctionDef 10 "f"
        [Stmt.Other 11 "Pass" [], Stmt.Other 12 "Return(value=None)" []]]).edges.length = 2 := by
  have h := claim_C1 10 "f" [Stmt.Other 11 "Pass" [], Stmt.Other 12 "Return(value=None)" []] rfl
  exact ⟨rfl, h.2.1, h.2.2.1⟩

/-- Claim C6: a module whose syntax tree holds no function definition,
conditional or loop produces a graph with no nodes and no edges; every other
node kind is transparent. -/
theorem claim_C6 (m : List Stmt) (h : constructFreeL m = true) :
    (generate_cfg m).nodes = [] ∧ (generate_cfg m).edges = [] := by
  rw [generate_cfg_spec]
  exact walk_decls_nil h

/-- Claim C6 witness: a module of two plain statements, one nesting another,
yields the empty graph. -/
theorem claim_C6_witness :
    constructFreeL
        [Stmt.Other 0 "Pass" [],
         Stmt.Other 1 "Expr(value=Call(func=Name(id=print)))" [Stmt.Other 2 "Pass" []]] = true ∧
    (generate_cfg
        [Stmt.Other 0 "Pass" [],
         Stmt.Other 1 "Expr(value=Call(func=Name(id=print)))" [Stmt.Other 2 "Pass" []]]).nodes = [] ∧
    (generate_cfg
        [Stmt.Other 0 "Pass" [],
         Stmt.Other 1 "Expr(value=Call(func=Name(id=print)))" [Stmt.Other 2 "Pass" []]]).edges = [] := by
  have h := claim_C6
    [Stmt.Other 0 "Pass" [],
     Stmt.Other 1 "Expr(value=Call(func=Name(id=print)))" [Stmt.Other 2 "Pass" []]] rfl
  exact ⟨rfl, h.1, h.2⟩

/-- Claim C3: a module with one if/else conditional, `A` then-statements and
`B` else-statements and no other constructs yields `1 + A + B` nodes and
`A + B` edges, all from the conditional's node, the then-children labeled
`Statement: …`, the else-children labeled `Else Statement: …`, and no
else-branch label can equal a then-branch label. -/
theorem claim_C3 (i : Nat) (test : Expr) (thenB elseB : List Stmt)
    (hthen : constructFreeL thenB = true) (helse : constructFreeL elseB = true) :
    (generate_cfg [Stmt.If i test thenB elseB]).nodes =
      (Nat.repr i, "If Condition: " ++ test.dump)
        :: (thenB.map (fun s => (Nat.repr s.ident, "Statement: " ++ s.dump))
            ++ elseB.map (fun s => (Nat.repr s.ident, "Else Statement: " ++ s.dump))) ∧
    (generate_cfg [Stmt.If i test thenB elseB]).nodes.length = 1 + thenB.length + elseB.length ∧
    (generate_cfg [Stmt.If i test thenB elseB]).edges.length = thenB.length + elseB.length ∧
    (∀ e ∈ (generate_cfg [Stmt.If i test thenB elseB]).edges, e.1 = Nat.repr i) ∧
    ∀ s ∈ elseB, ∀ t ∈ thenB,
      ("Else Statement: " ++ s.dump) ≠ ("Statement: " ++ t.dump) := by
  have hsingle := generate_cfg_singleton (Stmt.If i test thenB elseB)
  have hnil : constructFreeL (Stmt.If i test thenB elseB).children = true := by
    simp only [Stmt.children, constructFreeL_append, Bool.and_eq_true]
    exact ⟨hthen, helse⟩
  have hdecls := walk_decls_nil hnil
  refine ⟨?_, ?_, ?_, ?_, ?_⟩
  · rw [hsingle]
    simp [hdecls.1, nodeDecls]
  · rw [hsingle]
    simp [hdecls.1, nodeDecls]
    omega
  · rw [hsingle]
    simp [hdecls.2, edgeDecls, Stmt.cfgChildren]
  · intro e he
    rw [hsingle] at he
    simp only [hdecls.2, List.append_nil] at he
    rcases List.mem_map.mp he with ⟨c, _, rfl⟩
    rfl
  · intro s _ t _
    exact else_marker_ne s.dump t.dump

/-- Claim C3 witness: one then-statement and one else-statement give three
nodes, two edges from the conditional, and distinct branch labels. -/
theorem claim_C3_witness :
    constructFreeL [Stmt.Other 21 "Pass" []] = true ∧
    (generate_cfg [Stmt.If 20 ⟨"Compare(left=Name(id=x))"⟩
        [Stmt.Other 21 "Pass" []] [Stmt.Other 22 "Continue" []]]).nodes =
      [("20", "If Condition: Compare(left=Name(id=x))"),
       ("21", "Statement: Pass()"), ("22", "Else Statement: Continue()")] ∧
    ("Else Statement: " ++ (Stmt.Other 22 "Continue" []).dump) ≠
      ("Statement: " ++ (Stmt.Other 21 "Pass" []).dump) := by
  have h := claim_C3 20 ⟨"Compare(left=Name(id=x))"⟩
    [Stmt.Other 21 "Pass" []] [Stmt.Other 22 "Continue" []] rfl rfl
  refine ⟨rfl, ?_, ?_⟩
  · rw [h.1]
    rfl
  · exact h.2.2.2.2 _ (by simp) _ (by simp)

/-- Claim C4: a module with one loop, `N` construct-free immediate body
statements and no other constructs yields `1 + N` nodes and `N` edges, each
directed from the loop node to a body-statement node, and no edge targets the
loop node (no back-edge); the while node is labeled by the dump of the loop
condition, the for node by the dump of the iteration target. -/
theorem claim_C4 (iw : Nat) (testW : Expr) (bodyW orelseW : List Stmt)
    (hbW : constructFreeL bodyW = true) (hoW : constructFreeL orelseW = true)
    (hidW : ∀ c ∈ bodyW, c.ident ≠ iw)
    (jf : Nat) (target iterE : Expr) (bodyF orelseF : List Stmt)
    (hbF : constructFreeL bodyF = true) (hoF : constructFreeL orelseF = true)
    (hidF : ∀ c ∈ bodyF, c.ident ≠ jf) :
    (generate_cfg [Stmt.While iw testW bodyW orelseW]).nodes =
      (Nat.repr iw, "While Loop: " ++ testW.dump)
        :: bodyW.map (fun s => (Nat.repr s.ident, "Statement: " ++ s.dump)) ∧
    (generate_cfg [Stmt.While iw testW bodyW orelseW]).nodes.length = 1 + bodyW.length ∧
    (generate_cfg [Stmt.While iw testW bodyW orelseW]).edges =
      bodyW.map (fun c => (Nat.repr iw, Nat.repr c.ident)) ∧
    (∀ e ∈ (generate_cfg [Stmt.While iw testW bodyW orelseW]).edges, e.2 ≠ Nat.repr iw) ∧
    (generate_cfg [Stmt.For jf target iterE bodyF orelseF]).nodes =
      (Nat.repr jf, "For Loop: " ++ target.dump)
        :: bodyF.map (fun s => (Nat.repr s.ident, "Statement: " ++ s.dump)) ∧
    (generate_cfg [Stmt.For jf target iterE bodyF orelseF]).nodes.length = 1 + bodyF.length ∧
    (generate_cfg [Stmt.For jf target iterE bodyF orelseF]).edges =
      bodyF.map (fun c => (Nat.repr jf, Nat.repr c.ident)) ∧
    ∀ e ∈ (generate_cfg [Stmt.For jf target iterE bodyF orelseF]).edges, e.2 ≠ Nat.repr jf := by
  have hW := generate_cfg_singleton (Stmt.While iw testW bodyW orelseW)
  have hF := generate_cfg_singleton (Stmt.For jf target iterE bodyF orelseF)
  have hWnil : constructFreeL (Stmt.While iw testW bodyW orelseW).children = true := by
    simp only [Stmt.children, constructFreeL_append, Bool.and_eq_true]
    exact ⟨hbW, hoW⟩
  have hFnil : constructFreeL (Stmt.For jf target iterE bodyF orelseF).children = true := by
    simp only [Stmt.children, constructFreeL_append, Bool.and_eq_true]
    exact ⟨hbF, hoF⟩
  have hWdecls := walk_decls_nil hWnil
  have hFdecls := walk_decls_nil hFnil
  have hWnodes : (generate_cfg [Stmt.While iw testW bodyW orelseW]).nodes =
      (Nat.repr iw, "While Loop: " ++ testW.dump)
        :: bodyW.map (fun s => (Nat.repr s.ident, "Statement: " ++ s.dump)) := by
    rw [hW]; simp [hWdecls.1, nodeDecls]
  have hWedges : (generate_cfg [Stmt.While iw testW bodyW orelseW]).edges =
      bodyW.map (fun c => (Nat.repr iw, Nat.repr c.ident)) := by
    rw [hW]; simp [hWdecls.2, edgeDecls, Stmt.cfgChildren, Stmt.ident]
  have hFnodes : (generate_cfg [Stmt.For jf target iterE bodyF orelseF]).nodes =
      (Nat.repr jf, "For Loop: " ++ target.dump)
        :: bodyF.map (fun s => (Nat.repr s.ident, "Statement: " ++ s.dump)) := by
    rw [hF]; simp [hFdecls.1, nodeDecls]
  have hFedges : (generate_cfg [Stmt.For jf target iterE bodyF orelseF]).edges =
      bodyF.map (fun c => (Nat.repr jf, Nat.repr c.ident)) := by
    rw [hF]; simp [hFdecls.2, edgeDecls, Stmt.cfgChildren, Stmt.ident]
  refine ⟨hWnodes, by rw [hWnodes]; simp; omega, hWedges, ?_, hFnodes,
    by rw [hFnodes]; simp; omega, hFedges, ?_⟩
  · intro e he
    rw [hWedges] at he
    rcases List.mem_map.mp he with ⟨c, hc, rfl⟩
    intro hcon
    exact hidW c hc (repr_inj hcon)
  · intro e he
    rw [hFedges] at he
    rcases List.mem_map.mp he with ⟨c, hc, rfl⟩
    intro hcon
    exact hidF c hc (repr_inj hcon)

/-- Claim C4 witness: a one-statement while and a one-statement for, with the
expected node lists and no back-edge. -/
theorem claim_C4_witness :
    (generate_cfg [Stmt.While 30 ⟨"Compare(left=Name(id=n))"⟩
        [Stmt.Other 31 "AugAssign" []] []]).nodes =
      [("30", "While Loop: Compare(left=Name(id=n))"), ("31", "Statement: AugAssign()")] ∧
    (∀ e ∈ (generate_cfg [Stmt.While 30 ⟨"Compare(left=Name(id=n))"⟩
        [Stmt.Other 31 "AugAssign" []] []]).edges, e.2 ≠ Nat.repr 30) ∧
    (generate_cfg [Stmt.For 40 ⟨"Name(id=i, ctx=Store())"⟩ ⟨"Call(func=Name(id=range))"⟩
        [Stmt.Other 41 "Expr" []] []]).nodes =
      [("40", "For Loop: Name(id=i, ctx=Store())"), ("41", "Statement: Expr()")] := by
  have h := claim_C4 30 ⟨"Compare(left=Name(id=n))"⟩ [Stmt.Other 31 "AugAssign" []] []
    rfl rfl (by intro c hc; simp only [List.mem_singleton] at hc; subst hc; decide)
    40 ⟨"Name(id=i, ctx=Store())"⟩ ⟨"Call(func=Name(id=range))"⟩
    [Stmt.Other 41 "Expr" []] [] rfl rfl
    (by intro c hc; simp only [List.mem_singleton] at hc; subst hc; decide)
  exact ⟨by rw [h.1]; rfl, h.2.2.2.1, by rw [h.2.2.2.2.1]; rfl⟩

/-- Claim C5: the node identity key is a function of the originating syntax
node's object identity alone — equal identities give the same key whatever
the graph state or label, distinct identities always give distinct keys even
for content-identical statements — and re-declaring the same syntax node
leaves the set of declared keys unchanged instead of adding a node under a
new key. -/
theorem claim_C5 :
    (∀ (d₁ d₂ : Digraph) (s t : Stmt) (l₁ l₂ : String), s.ident = t.ident →
        (add_cfg_node d₁ s l₁).2 = (add_cfg_node d₂ t l₂).2) ∧
    (∀ (d₁ d₂ : Digraph) (s t : Stmt) (l₁ l₂ : String), s.ident ≠ t.ident →
        (add_cfg_node d₁ s l₁).2 ≠ (add_cfg_node d₂ t l₂).2) ∧
    (∀ (d : Digraph) (s : Stmt) (l₁ l₂ : String),
        (((add_cfg_node (add_cfg_node d s l₁).1 s l₂).1).nodes.map Prod.fst).toFinset =
          (((add_cfg_node d s l₁).1).nodes.map Prod.fst).toFinset) := by
  refine ⟨?_, ?_, ?_⟩
  · intro d₁ d₂ s t l₁ l₂ h
    simp [add_cfg_node, h]
  · intro d₁ d₂ s t l₁ l₂ h heq
    exact h (repr_inj heq)
  · intro d s l₁ l₂
    simp only [add_cfg_node, Digraph.node, List.map_append, List.toFinset_append]
    ext a
    simp

/-- Claim C5 witness: two content-identical `Pass` statements at distinct
identities receive distinct keys, and re-declaring one changes no key set. -/
theorem claim_C5_witness :
    (add_cfg_node { nodes := [], edges := [] } (Stmt.Other 3 "Pass" []) "L").2 ≠
      (add_cfg_node { nodes := [], edges := [] } (Stmt.Other 4 "Pass" []) "L").2 ∧
    (((add_cfg_node
          (add_cfg_node { nodes := [], edges := [] } (Stmt.Other 3 "Pass" []) "L").1
          (Stmt.Other 3 "Pass" []) "M").1).nodes.map Prod.fst).toFinset =
      (((add_cfg_node { nodes := [], edges := [] }
          (Stmt.Other 3 "Pass" []) "L").1).nodes.map Prod.fst).toFinset :=
  ⟨claim_C5.2.1 _ _ _ _ "L" "L" (by decide),
   claim_C5.2.2 { nodes := [], edges := [] } (Stmt.Other 3 "Pass" []) "L" "M"⟩

/-! ## The CLI surface and the parse boundary -/

/-- Outcome of one `main` invocation: the process exit code, the
diagnostic messages printed on the guarded error paths, and the output
files created. -/
structure MainOutcome where
  exitCode : Nat
  messages : List String
  filesCreated : List String
deriving DecidableEq, Repr

/-- The `main` entry point (src/main.py), modelled over the ambient OS facts
it consults.  It checks `len(sys.argv) < 2` (usage message, `sys.exit(1)`)
and then `os.path.isfile(sys.argv[1])` (file-not-found message,
`sys.exit(1)`) before any pipeline stage runs, so no output file exists on
either error path; on the success path the pipeline writes its images,
abstracted as `pipelineFiles` (success-path prints are not modelled). -/
def main_model (argv : List String) (isfile : String → Bool)
    (pipelineFiles : List String) : MainOutcome :=
  if argv.length < 2 then
    { exitCode := 1, messages := ["Usage: python analyze_code.py <python_file>"],
      filesCreated := [] }
  else
    let input_file := argv.getD 1 ""
    if isfile input_file = false then
      { exitCode := 1, messages := ["File not found: " ++ input_file], filesCreated := [] }
    else
      { exitCode := 0, messages := [], filesCreated := pipelineFiles }

/-- Claim C8: a missing positional argument or a path that is not a readable
file makes the program exit with code 1 — after the usage message or the
file-not-found message respectively — and creates no output image file. -/
theorem claim_C8 (argv : List String) (isfile : String → Bool) (outs : List String)
    (h : argv.length < 2 ∨ isfile (argv.getD 1 "") = false) :
    (main_model argv isfile outs).exitCode = 1 ∧
    (main_model argv isfile outs).filesCreated = [] ∧
    (argv.length < 2 →
      (main_model argv isfile outs).messages =
        ["Usage: python analyze_code.py <python_file>"]) ∧
    (¬ argv.length < 2 → isfile (argv.getD 1 "") = false →
      (main_model argv isfile outs).messages = ["File not found: " ++ argv.getD 1 ""]) := by
  unfold main_model
  rcases h with h | h
  · simp [h]
  · by_cases h2 : argv.length < 2
    · simp [h2]
    · simp only [List.getD_eq_getElem?_getD] at h
      simp [h2, h]

/-- Claim C8 witness: a nonexistent input path exits with code 1 and creates
none of the three output images. -/
theorem claim_C8_witness :
    (main_model ["main.py", "nosuch.py"] (fun _ => false)
        ["cfg.png", "memory_allocation.png", "pointers.png"]).exitCode = 1 ∧
    (main_model ["main.py", "nosuch.py"] (fun _ => false)
        ["cfg.png", "memory_allocation.png", "pointers.png"]).filesCreated = [] := by
  have h := claim_C8 ["main.py", "nosuch.py"] (fun _ => false)
    ["cfg.png", "memory_allocation.png", "pointers.png"] (Or.inr rfl)
  exact ⟨h.1, h.2.1⟩

/-- The builder applied from source text: `ast.parse(code)` runs first and
may fail with a syntax error, which `generate_cfg` does not catch; the graph
object is only created after a successful parse.  `parse` stands for the
external parser collaborator. -/
def generate_cfg_of_source (parse : String → Except String (List Stmt))
    (code : String) : Except String PyCFG.Digraph :=
  match parse code with
  | .error e => .error e
  | .ok tree => .ok (generate_cfg tree)

/-- Claim C9: on syntactically invalid source the parse failure propagates
out of the builder unrecovered, and no graph — hence no node and no edge —
is ever constructed. -/
theorem claim_C9 (parse : String → Except String (List Stmt)) (code e : String)
    (h : parse code = .error e) :
    generate_cfg_of_source parse code = .error e ∧
    ∀ d : Digraph, generate_cfg_of_source parse code ≠ .ok d := by
  constructor
  · simp [generate_cfg_of_source, h]
  · intro d hd
    simp [generate_cfg_of_source, h] at hd

/-- Claim C9 witness: a parser rejecting the source propagates its error. -/
theorem claim_C9_witness :
    generate_cfg_of_source (fun _ => Except.error "SyntaxError: invalid syntax")
        "def f(:" = Except.error "SyntaxError: invalid syntax" :=
  (claim_C9 (fun _ => Except.error "SyntaxError: invalid syntax")
    "def f(:" "SyntaxError: invalid syntax" rfl).1

/-! ## Per-run identity assignments

Two runs of the program on byte-identical source parse the same tree shape;
only the objects' identities differ between runs.  `Stmt.mapId` reassigns
every identity in a tree through a function, which models the second run's
identity layout relative to the first. -/

mutual
/-- Reassign every object identity in the subtree through `f`, leaving all
syntactic content untouched. -/
def Stmt.mapId (f : Nat → Nat) : Stmt → Stmt
  | .FunctionDef i name body => .FunctionDef (f i) name (mapIdL f body)
  | .If i t b o => .If (f i) t (mapIdL f b) (mapIdL f o)
  | .While i t b o => .While (f i) t (mapIdL f b) (mapIdL f o)
  | .For i t it b o => .For (f i) t it (mapIdL f b) (mapIdL f o)
  | .Other i h k => .Other (f i) h (mapIdL f k)

/-- Reassign identities across a statement forest. -/
def mapIdL (f : Nat → Nat) : List Stmt → List Stmt
  | [] => []
  | s :: r => Stmt.mapId f s :: mapIdL f r
end

mutual
/-- Relabeling identities never changes the `ast.dump` text. -/
theorem dump_mapId (f : Nat → Nat) (s : Stmt) : (Stmt.mapId f s).dump = s.dump := by
  cases s <;> simp [Stmt.mapId, Stmt.dump, dumpL_mapId]

/-- List version of `dump_mapId`. -/
theorem dumpL_mapId (f : Nat → Nat) (l : List Stmt) : dumpL (mapIdL f l) = dumpL l := by
  cases l with
  | nil => rfl
  | cons s r =>
      cases r with
      | nil => simp [mapIdL, dumpL, dump_mapId]
      | cons t r2 =>
          show (Stmt.mapId f s).dump ++ ", " ++ dumpL (mapIdL f (t :: r2)) = _
          rw [dump_mapId f s, dumpL_mapId f (t :: r2)]
          rfl
end

mutual
/-- Relabeling identities preserves subtree size. -/
theorem Stmt.size_mapId (f : Nat → Nat) (s : Stmt) : (Stmt.mapId f s).size = s.size := by
  cases s <;> simp [Stmt.mapId, Stmt.size, sizeL_mapIdL]

/-- List version of `Stmt.size_mapId`. -/
theorem sizeL_mapIdL (f : Nat → Nat) (l : List Stmt) : sizeL (mapIdL f l) = sizeL l := by
  cases l with
  | nil => rfl
  | cons s r => simp [mapIdL, sizeL, Stmt.size_mapId f s, sizeL_mapIdL f r]
end

/-- Relabeling is a pointwise map on forests. -/
theorem mapIdL_eq_map (f : Nat → Nat) (l : List Stmt) :
    mapIdL f l = l.map (Stmt.mapId f) := by
  induction l with
  | nil => rfl
  | cons s r ih => simp [mapIdL, ih]

/-- Relabeling distributes over forest concatenation. -/
theorem mapIdL_append (f : Nat → Nat) (a b : List Stmt) :
    mapIdL f (a ++ b) = mapIdL f a ++ mapIdL f b := by
  simp [mapIdL_eq_map]

/-- Relabeling commutes with taking children. -/
theorem children_mapId (f : Nat → Nat) (s : Stmt) :
    (Stmt.mapId f s).children = mapIdL f s.children := by
  cases s <;> simp [Stmt.mapId, Stmt.children, mapIdL_append]

/-- Relabeling commutes with the drawn-to children. -/
theorem cfgChildren_mapId (f : Nat → Nat) (s : Stmt) :
    (Stmt.mapId f s).cfgChildren = mapIdL f s.cfgChildren := by
  cases s <;> simp [Stmt.mapId, Stmt.cfgChildren, mapIdL_append, mapIdL]

/-- Relabeling maps the root identity through `f`. -/
theorem ident_mapId (f : Nat → Nat) (s : Stmt) :
    (Stmt.mapId f s).ident = f s.ident := by
  cases s <;> rfl

/-- Relabeling commutes with one breadth-first level. -/
theorem flatMap_children_mapId (f : Nat → Nat) (l : List Stmt) :
    (mapIdL f l).flatMap Stmt.children = mapIdL f (l.flatMap Stmt.children) := by
  induction l with
  | nil => rfl
  | cons s r ih => simp [mapIdL, children_mapId, mapIdL_append, ih]

/-- Relabeling commutes with the breadth-first walk. -/
theorem walk_mapId (f : Nat → Nat) :
    ∀ (n : Nat) (l : List Stmt), sizeL l ≤ n →
      walk (mapIdL f l) = mapIdL f (walk l) := by
  intro n
  induction n with
  | zero =>
      intro l hl
      have : l = [] := sizeL_eq_zero (Nat.le_zero.mp hl)
      subst this
      rfl
  | succ n ih =>
      intro l hl
      cases l with
      | nil => rfl
      | cons s rest =>
          rw [walk_unfold (mapIdL f (s :: rest)), walk_unfold (s :: rest)]
          rw [flatMap_children_mapId, mapIdL_append]
          congr 1
          have hs := sizeL_flatMap_children (s :: rest)
          simp only [List.length_cons] at hs
          have := Stmt.size_pos s
          exact ih _ (by omega)

/-- Parse a decimal key back to the identity it renders. -/
def parseNat (k : String) : Nat := parseVal k.data

/-- Round trip: a rendered key parses back to its identity. -/
theorem parseNat_repr (i : Nat) : parseNat (Nat.repr i) = i := by
  have hdata : (Nat.repr i).data = decDigits i := by
    rw [Nat.repr, toDigits_eq_decDigits]
    rfl
  show parseVal (Nat.repr i).data = i
  rw [hdata, parseVal_decDigits]

/-- The key-level action of an identity reassignment. -/
def keyRename (f : Nat → Nat) (k : String) : String := Nat.repr (f (parseNat k))

/-- On rendered keys, `keyRename` is exactly `f` under the rendering. -/
theorem keyRename_repr (f : Nat → Nat) (i : Nat) :
    keyRename f (Nat.repr i) = Nat.repr (f i) := by
  rw [keyRename, parseNat_repr]

/-- Node declarations of a relabeled node are the base node's declarations
with keys renamed; labels are untouched. -/
theorem nodeDecls_mapId (f : Nat → Nat) (s : Stmt) :
    nodeDecls (Stmt.mapId f s) =
      (nodeDecls s).map (fun p => (keyRename f p.1, p.2)) := by
  cases s <;>
    simp [Stmt.mapId, nodeDecls, mapIdL_eq_map, List.map_map, Function.comp_def,
      ident_mapId, dump_mapId, keyRename_repr]

/-- Edge declarations of a relabeled node are the base node's declarations
with both endpoint keys renamed. -/
theorem edgeDecls_mapId (f : Nat → Nat) (s : Stmt) :
    edgeDecls (Stmt.mapId f s) =
      (edgeDecls s).map (fun p => (keyRename f p.1, keyRename f p.2)) := by
  rw [edgeDecls, edgeDecls, cfgChildren_mapId, mapIdL_eq_map]
  simp [List.map_map, Function.comp_def, ident_mapId, keyRename_repr]

/-- The graph of a relabeled module is the base graph with every node key
and every edge endpoint renamed, and every label identical. -/
theorem generate_cfg_mapId (f : Nat → Nat) (m : List Stmt) :
    generate_cfg (mapIdL f m) =
      { nodes := (generate_cfg m).nodes.map (fun p => (keyRename f p.1, p.2)),
        edges := (generate_cfg m).edges.map
          (fun p => (keyRename f p.1, keyRename f p.2)) } := by
  rw [generate_cfg_spec, generate_cfg_spec, walk_mapId f (sizeL m) m le_rfl, mapIdL_eq_map]
  congr 1
  · rw [List.flatMap_map, List.map_flatMap]
    exact List.flatMap_congr fun s _ => nodeDecls_mapId f s
  · rw [List.flatMap_map, List.map_flatMap]
    exact List.flatMap_congr fun s _ => edgeDecls_mapId f s

/-- Claim C7: two runs on byte-identical source — the same parse shape under
per-run object-identity assignments `f` and `g` — produce graphs with the
same node-label sequence (hence the same label multiset), the same edge
count, and the same shape: each run's node list and edge list is the base
graph's with keys renamed, labels and connection structure untouched, even
though the keys themselves differ between runs. -/
theorem claim_C7 (m : List Stmt) (f g : Nat → Nat) :
    (generate_cfg (mapIdL f m)).nodes.map Prod.snd =
      (generate_cfg (mapIdL g m)).nodes.map Prod.snd ∧
    (generate_cfg (mapIdL f m)).edges.length =
      (generate_cfg (mapIdL g m)).edges.length ∧
    (generate_cfg (mapIdL f m)).nodes =
      (generate_cfg m).nodes.map (fun p => (keyRename f p.1, p.2)) ∧
    (generate_cfg (mapIdL f m)).edges =
      (generate_cfg m).edges.map (fun p => (keyRename f p.1, keyRename f p.2)) ∧
    (generate_cfg (mapIdL g m)).nodes =
      (generate_cfg m).nodes.map (fun p => (keyRename g p.1, p.2)) ∧
    (generate_cfg (mapIdL g m)).edges =
      (generate_cfg m).edges.map (fun p => (keyRename g p.1, keyRename g p.2)) := by
  have hf := generate_cfg_mapId f m
  have hg := generate_cfg_mapId g m
  refine ⟨?_, ?_, by rw [hf], by rw [hf], by rw [hg], by rw [hg]⟩
  · rw [hf, hg]
    simp [List.map_map, Function.comp_def]
  · rw [hf, hg]
    simp

/-! ## Incoming-edge analysis (claim C2) -/

/-- Every drawn-to child of a walked construct receives the edge from its
introducing construct's node. -/
theorem edge_of_cfgChild {m : List Stmt} {s c : Stmt}
    (hs : s ∈ walk m) (hc : c ∈ s.cfgChildren) :
    (Nat.repr s.ident, Nat.repr c.ident) ∈ (generate_cfg m).edges := by
  rw [generate_cfg_spec]
  show _ ∈ (walk m).flatMap edgeDecls
  exact List.mem_flatMap.mpr ⟨s, hs, List.mem_map.mpr ⟨c, hc, rfl⟩⟩

/-- Every node declaration is the visited construct's own declaration or a
declaration for one of its drawn-to children. -/
theorem mem_nodeDecls_cases {s : Stmt} {p : String × String} (hp : p ∈ nodeDecls s) :
    (s.isConstruct = true ∧ p.1 = Nat.repr s.ident ∧ ownLabel s = some p.2) ∨
    ∃ c ∈ s.cfgChildren, p.1 = Nat.repr c.ident := by
  cases s with
  | FunctionDef i name body =>
      rcases List.mem_cons.mp hp with rfl | hmem
      · exact Or.inl ⟨rfl, rfl, rfl⟩
      · rcases List.mem_map.mp hmem with ⟨c, hc, rfl⟩
        exact Or.inr ⟨c, hc, rfl⟩
  | If i test body orelse =>
      rcases List.mem_cons.mp hp with rfl | hmem
      · exact Or.inl ⟨rfl, rfl, rfl⟩
      · rcases List.mem_append.mp hmem with hmem | hmem <;>
          rcases List.mem_map.mp hmem with ⟨c, hc, rfl⟩
        · exact Or.inr ⟨c, List.mem_append_left _ hc, rfl⟩
        · exact Or.inr ⟨c, List.mem_append_right _ hc, rfl⟩
  | While i test body orelse =>
      rcases List.mem_cons.mp hp with rfl | hmem
      · exact Or.inl ⟨rfl, rfl, rfl⟩
      · rcases List.mem_map.mp hmem with ⟨c, hc, rfl⟩
        exact Or.inr ⟨c, hc, rfl⟩
  | For i target iterE body orelse =>
      rcases List.mem_cons.mp hp with rfl | hmem
      · exact Or.inl ⟨rfl, rfl, rfl⟩
      · rcases List.mem_map.mp hmem with ⟨c, hc, rfl⟩
        exact Or.inr ⟨c, hc, rfl⟩
  | Other i hd kids => cases hp

/-- Claim C2 counterexample: for a module whose only construct is a
top-level conditional, the conditional's node is in the graph, no node is a
function node, and yet no edge targets the conditional's node — refuting
the claimed invariant that every non-function node has an incoming edge. -/
theorem claim_C2_counterexample :
    ("0", "If Condition: Name(id=x, ctx=Load())") ∈
      (generate_cfg [Stmt.If 0 (Expr.mk "Name(id=x, ctx=Load())")
          [Stmt.Other 1 "Pass" []] []]).nodes ∧
    (∀ p ∈ (generate_cfg [Stmt.If 0 (Expr.mk "Name(id=x, ctx=Load())")
          [Stmt.Other 1 "Pass" []] []]).nodes,
        p.2.data.take 10 ≠ "Function: ".data) ∧
    ∀ e ∈ (generate_cfg [Stmt.If 0 (Expr.mk "Name(id=x, ctx=Load())")
          [Stmt.Other 1 "Pass" []] []]).edges, e.2 ≠ "0" := by
  decide

/-- Claim C2, amended: every CFGNode declaration is either a walked
construct's own node or a node created for an immediate body statement of a
walked construct, and in the latter case it has an incoming edge from the
construct that introduced it.  (The original claim fails for construct nodes
that are not introduced as body statements — e.g. conditionals or loops at
module top level — which have no incoming edge, exactly like root-level
function nodes.) -/
theorem claim_C2 (m : List Stmt) :
    ∀ p ∈ (generate_cfg m).nodes,
      (∃ s ∈ walk m, s.isConstruct = true ∧ p.1 = Nat.repr s.ident ∧
        ownLabel s = some p.2) ∨
      ∃ s ∈ walk m, ∃ c ∈ s.cfgChildren, p.1 = Nat.repr c.ident ∧
        (Nat.repr s.ident, p.1) ∈ (generate_cfg m).edges := by
  intro p hp
  rw [generate_cfg_spec] at hp
  replace hp : p ∈ (walk m).flatMap nodeDecls := hp
  rcases List.mem_flatMap.mp hp with ⟨s, hs, hmem⟩
  rcases mem_nodeDecls_cases hmem with ⟨hcon, h1, h2⟩ | ⟨c, hc, h1⟩
  · exact Or.inl ⟨s, hs, hcon, h1, h2⟩
  · refine Or.inr ⟨s, hs, c, hc, h1, ?_⟩
    rw [h1]
    exact edge_of_cfgChild hs hc

/-- Claim C2 witness: in a one-function module, the body-statement node is
introduced by the function and indeed carries the incoming edge. -/
theorem claim_C2_witness :
    (∃ s ∈ walk [Stmt.FunctionDef 0 "f" [Stmt.Other 1 "Pass" []]],
        s.isConstruct = true ∧ ("1", "Statement: Pass()").1 = Nat.repr s.ident ∧
        ownLabel s = some ("1", "Statement: Pass()").2) ∨
    ∃ s ∈ walk [Stmt.FunctionDef 0 "f" [Stmt.Other 1 "Pass" []]],
      ∃ c ∈ s.cfgChildren, ("1", "Statement: Pass()").1 = Nat.repr c.ident ∧
        (Nat.repr s.ident, ("1", "Statement: Pass()").1) ∈
          (generate_cfg [Stmt.FunctionDef 0 "f" [Stmt.Other 1 "Pass" []]]).edges :=
  claim_C2 [Stmt.FunctionDef 0 "f" [Stmt.Other 1 "Pass" []]]
    ("1", "Statement: Pass()") (by decide)

/-! ## Duplicate declarations for nested constructs (claim C10) -/

/-- Drawn-to children are children. -/
theorem cfgChildren_subset_children (s : Stmt) : ∀ c ∈ s.cfgChildren, c ∈ s.children := by
  cases s <;> intro c hc <;> simp [Stmt.cfgChildren, Stmt.children] at hc ⊢ <;> tauto

/-- A member's size is bounded by the forest total. -/
theorem size_le_sizeL_of_mem {l : List Stmt} {s : Stmt} (h : s ∈ l) :
    s.size ≤ sizeL l := by
  induction l with
  | nil => cases h
  | cons a r ih =>
      rcases List.mem_cons.mp h with rfl | h₂
      · simp only [sizeL]; omega
      · have := ih h₂; simp only [sizeL]; omega

/-- No statement is its own child. -/
theorem not_mem_own_children (c : Stmt) : c ∉ c.children := by
  intro h
  have h₁ := size_le_sizeL_of_mem h
  have h₂ := sizeL_children c
  omega

/-- Under distinct identities, equal identities in the walk force equal
statements. -/
theorem walk_ident_inj {m : List Stmt} (hnd : ((walk m).map Stmt.ident).Nodup)
    {x y : Stmt} (hx : x ∈ walk m) (hy : y ∈ walk m) (h : x.ident = y.ident) :
    x = y :=
  List.inj_on_of_nodup_map hnd hx hy h

/-- Breadth-first order visits every parent before its children: under
distinct identities, no statement occurring after `x` in the walk has `x`
among its children. -/
theorem walk_child_before :
    ∀ (n : Nat) (l : List Stmt), sizeL l ≤ n →
      ((walk l).map Stmt.ident).Nodup →
      ∀ (A B : List Stmt) (x : Stmt), walk l = A ++ x :: B →
        ∀ y ∈ B, x ∉ y.children := by
  intro n
  induction n with
  | zero =>
      intro l hl _ A B x hsplit y hy
      have : l = [] := sizeL_eq_zero (Nat.le_zero.mp hl)
      subst this
      rw [walk_nil] at hsplit
      have hlen := congrArg List.length hsplit
      simp at hlen
      omega
  | succ n ih =>
      intro l hl hnd A B x hsplit y hy hxy
      cases l with
      | nil =>
          rw [walk_nil] at hsplit
          have hlen := congrArg List.length hsplit
          simp at hlen
          omega
      | cons a rest =>
          have hW := walk_unfold (a :: rest)
          have hsz : sizeL ((a :: rest).flatMap Stmt.children) ≤ n := by
            have h₁ := sizeL_flatMap_children (a :: rest)
            simp only [List.length_cons] at h₁
            omega
          have hnd' :
              ((walk ((a :: rest).flatMap Stmt.children)).map Stmt.ident).Nodup := by
            rw [hW, List.map_append] at hnd
            exact List.Nodup.of_append_right hnd
          rw [hW] at hsplit
          rcases List.append_eq_append_iff.mp hsplit with ⟨A₂, hA, hwalk⟩ | ⟨q, hq1, hq2⟩
          · exact ih _ hsz hnd' A₂ B x hwalk y hy hxy
          · cases q with
            | nil =>
                simp only [List.nil_append] at hq2
                exact ih _ hsz hnd' [] B x hq2.symm y hy hxy
            | cons x' q₂ =>
                rw [List.cons_append] at hq2
                obtain ⟨rfl, hB⟩ : x = x' ∧ B = q₂ ++ walk ((a :: rest).flatMap Stmt.children) :=
                  ⟨(List.cons.injEq _ _ _ _ ▸ hq2).1, (List.cons.injEq _ _ _ _ ▸ hq2).2⟩
                have hx_l0 : x ∈ a :: rest := by
                  rw [hq1]
                  exact List.mem_append_right _ (List.mem_cons_self _ _)
                have hx_w : x ∈ walk ((a :: rest).flatMap Stmt.children) := by
                  rw [hB] at hy
                  rcases List.mem_append.mp hy with hy₂ | hy₂
                  · have hy_l0 : y ∈ a :: rest := by
                      rw [hq1]
                      exact List.mem_append_right _ (List.mem_cons_of_mem _ hy₂)
                    exact self_subset_walk (List.mem_flatMap.mpr ⟨y, hy_l0, hxy⟩)
                  · exact mem_walk_children _ _ le_rfl y hy₂ x hxy
                rw [hW, List.map_append] at hnd
                exact List.disjoint_of_nodup_append hnd
                  (List.mem_map_of_mem _ hx_l0) (List.mem_map_of_mem _ hx_w)

/-- A construct's own contribution: its own keyed declaration first, then
declarations keyed by its drawn-to children. -/
theorem own_decl {c : Stmt} (hcon : c.isConstruct = true) :
    ∃ lab rest, ownLabel c = some lab ∧
      nodeDecls c = (Nat.repr c.ident, lab) :: rest ∧
      ∀ p ∈ rest, ∃ z ∈ c.cfgChildren, p.1 = Nat.repr z.ident := by
  cases c with
  | FunctionDef i name body =>
      refine ⟨_, _, rfl, rfl, ?_⟩
      intro p hp
      rcases List.mem_map.mp hp with ⟨z, hz, rfl⟩
      exact ⟨z, hz, rfl⟩
  | If i test body orelse =>
      refine ⟨_, _, rfl, rfl, ?_⟩
      intro p hp
      rcases List.mem_append.mp hp with hp | hp <;>
        rcases List.mem_map.mp hp with ⟨z, hz, rfl⟩
      · exact ⟨z, List.mem_append_left _ hz, rfl⟩
      · exact ⟨z, List.mem_append_right _ hz, rfl⟩
  | While i test body orelse =>
      refine ⟨_, _, rfl, rfl, ?_⟩
      intro p hp
      rcases List.mem_map.mp hp with ⟨z, hz, rfl⟩
      exact ⟨z, hz, rfl⟩
  | For i target iterE body orelse =>
      refine ⟨_, _, rfl, rfl, ?_⟩
      intro p hp
      rcases List.mem_map.mp hp with ⟨z, hz, rfl⟩
      exact ⟨z, hz, rfl⟩
  | Other i hd kids => simp [Stmt.isConstruct] at hcon

/-- A drawn-to child is declared by its introducing construct under one of
the two statement markers. -/
theorem child_decl {s c : Stmt} (hc : c ∈ s.cfgChildren) :
    ∃ mk, (mk = "Statement: " ∨ mk = "Else Statement: ") ∧
      (Nat.repr c.ident, mk ++ c.dump) ∈ nodeDecls s := by
  cases s with
  | FunctionDef i name body =>
      exact ⟨"Statement: ", Or.inl rfl,
        List.mem_cons_of_mem _ (List.mem_map.mpr ⟨c, hc, rfl⟩)⟩
  | If i test body orelse =>
      rcases List.mem_append.mp hc with hc | hc
      · exact ⟨"Statement: ", Or.inl rfl,
          List.mem_cons_of_mem _
            (List.mem_append_left _ (List.mem_map.mpr ⟨c, hc, rfl⟩))⟩
      · exact ⟨"Else Statement: ", Or.inr rfl,
          List.mem_cons_of_mem _
            (List.mem_append_right _ (List.mem_map.mpr ⟨c, hc, rfl⟩))⟩
  | While i test body orelse =>
      exact ⟨"Statement: ", Or.inl rfl,
        List.mem_cons_of_mem _ (List.mem_map.mpr ⟨c, hc, rfl⟩)⟩
  | For i target iterE body orelse =>
      exact ⟨"Statement: ", Or.inl rfl,
        List.mem_cons_of_mem _ (List.mem_map.mpr ⟨c, hc, rfl⟩)⟩
  | Other i hd kids => cases hc

/-- A statement-marker label can never coincide with a construct's own
label: the texts differ at the first character. -/
theorem own_ne_child_label {c : Stmt} (hcon : c.isConstruct = true) {lab : String}
    (hlab : ownLabel c = some lab) (mk a : String)
    (hmk : mk = "Statement: " ∨ mk = "Else Statement: ") : mk ++ a ≠ lab := by
  cases c with
  | FunctionDef i name body =>
      obtain rfl : ("Function: " ++ name) = lab := Option.some.inj hlab
      rcases hmk with rfl | rfl <;> intro h
      · have h2 : (some 'S' : Option Char) = some 'F' :=
          congrArg (fun t : String => t.data.head?) h
        exact absurd h2 (by decide)
      · have h2 : (some 'E' : Option Char) = some 'F' :=
          congrArg (fun t : String => t.data.head?) h
        exact absurd h2 (by decide)
  | If i test body orelse =>
      obtain rfl : ("If Condition: " ++ test.dump) = lab := Option.some.inj hlab
      rcases hmk with rfl | rfl <;> intro h
      · have h2 : (some 'S' : Option Char) = some 'I' :=
          congrArg (fun t : String => t.data.head?) h
        exact absurd h2 (by decide)
      · have h2 : (some 'E' : Option Char) = some 'I' :=
          congrArg (fun t : String => t.data.head?) h
        exact absurd h2 (by decide)
  | While i test body orelse =>
      obtain rfl : ("While Loop: " ++ test.dump) = lab := Option.some.inj hlab
      rcases hmk with rfl | rfl <;> intro h
      · have h2 : (some 'S' : Option Char) = some 'W' :=
          congrArg (fun t : String => t.data.head?) h
        exact absurd h2 (by decide)
      · have h2 : (some 'E' : Option Char) = some 'W' :=
          congrArg (fun t : String => t.data.head?) h
        exact absurd h2 (by decide)
  | For i target iterE body orelse =>
      obtain rfl : ("For Loop: " ++ target.dump) = lab := Option.some.inj hlab
      rcases hmk with rfl | rfl <;> intro h
      · have h2 : (some 'S' : Option Char) = some 'F' :=
          congrArg (fun t : String => t.data.head?) h
        exact absurd h2 (by decide)
      · have h2 : (some 'E' : Option Char) = some 'F' :=
          congrArg (fun t : String => t.data.head?) h
        exact absurd h2 (by decide)
  | Other i hd kids => simp [Stmt.isConstruct] at hcon

/-- The label rendered for a node key: graphviz applies attribute statements
in order, so the last declaration under a key wins. -/
def lastLabel (d : Digraph) (k : String) : Option String :=
  ((d.nodes.filter (fun p => p.1 == k)).map Prod.snd).getLast?

/-- Two elements drawn from the halves of an append form a sublist. -/
theorem pair_sublist_append {α : Type} {a b : α} {l₁ l₂ : List α}
    (ha : a ∈ l₁) (hb : b ∈ l₂) : [a, b].Sublist (l₁ ++ l₂) := by
  have h := List.Sublist.append (List.singleton_sublist.mpr ha)
    (List.singleton_sublist.mpr hb)
  simpa using h

/-- Claim C10: a syntax node that is both an immediate body statement of an
enclosing construct and itself a construct is declared twice under the same
identity key — first as a marker-labeled child of the enclosing construct,
later with its own construct label when the walk reaches it — with different
label texts; the rendered graph keeps a single node under that key whose
label is the later (construct) declaration, and the nested construct still
gets its own outgoing edges to its body statements. -/
theorem claim_C10 (m : List Stmt) (hnd : ((walk m).map Stmt.ident).Nodup)
    (s c : Stmt) (hs : s ∈ walk m) (hc : c ∈ s.cfgChildren)
    (hcon : c.isConstruct = true) :
    ∃ mk lab, (mk = "Statement: " ∨ mk = "Else Statement: ") ∧
      ownLabel c = some lab ∧ mk ++ c.dump ≠ lab ∧
      [(Nat.repr c.ident, mk ++ c.dump), (Nat.repr c.ident, lab)].Sublist
        (generate_cfg m).nodes ∧
      lastLabel (generate_cfg m) (Nat.repr c.ident) = some lab ∧
      ∀ g ∈ c.cfgChildren,
        (Nat.repr c.ident, Nat.repr g.ident) ∈ (generate_cfg m).edges := by
  obtain ⟨mk, hmk, hchild⟩ := child_decl hc
  obtain ⟨lab, rest, hlab, hdecl, hrest⟩ := own_decl hcon
  have hcw : c ∈ walk m :=
    mem_walk_children (sizeL m) m le_rfl s hs c (cfgChildren_subset_children s c hc)
  obtain ⟨P, S, hPS⟩ := List.append_of_mem hcw
  have hnd' := hnd
  rw [hPS, List.map_append, List.map_cons] at hnd'
  have hS_ident : ∀ y ∈ S, y.ident ≠ c.ident := by
    intro y hy heq
    have h₁ : (c.ident :: S.map Stmt.ident).Nodup := List.Nodup.of_append_right hnd'
    exact (List.nodup_cons.mp h₁).1 (heq ▸ List.mem_map_of_mem _ hy)
  have hS_sub : ∀ y ∈ S, y ∈ walk m := by
    intro y hy
    rw [hPS]
    exact List.mem_append_right _ (List.mem_cons_of_mem _ hy)
  have hnochild : ∀ y ∈ S, c ∉ y.children :=
    walk_child_before (sizeL m) m le_rfl hnd P S c hPS
  have hS_keys : ∀ p ∈ S.flatMap nodeDecls, p.1 ≠ Nat.repr c.ident := by
    intro p hp heq
    rcases List.mem_flatMap.mp hp with ⟨y, hy, hpy⟩
    rcases mem_nodeDecls_cases hpy with ⟨_, h₁, _⟩ | ⟨z, hz, h₁⟩
    · exact hS_ident y hy (repr_inj (h₁.symm.trans heq))
    · have hzw : z ∈ walk m :=
        mem_walk_children (sizeL m) m le_rfl y (hS_sub y hy) z
          (cfgChildren_subset_children y z hz)
      have hzc : z = c := walk_ident_inj hnd hzw hcw (repr_inj (h₁.symm.trans heq))
      subst hzc
      exact hnochild y hy (cfgChildren_subset_children y z hz)
  have hrest_keys : ∀ p ∈ rest, p.1 ≠ Nat.repr c.ident := by
    intro p hp heq
    obtain ⟨z, hz, h₁⟩ := hrest p hp
    have hzw : z ∈ walk m :=
      mem_walk_children (sizeL m) m le_rfl c hcw z (cfgChildren_subset_children c z hz)
    have hzc : z = c := walk_ident_inj hnd hzw hcw (repr_inj (h₁.symm.trans heq))
    subst hzc
    exact not_mem_own_children z (cfgChildren_subset_children z z hz)
  have hsP : s ∈ P := by
    have hs' := hs
    rw [hPS] at hs'
    rcases List.mem_append.mp hs' with h | h
    · exact h
    · rcases List.mem_cons.mp h with rfl | h
      · exact absurd (cfgChildren_subset_children s s hc) (not_mem_own_children s)
      · exact absurd (cfgChildren_subset_children s c hc) (hnochild s h)
  obtain ⟨P₁, P₂, hP12⟩ := List.append_of_mem hsP
  have hwalk_split : walk m = (P₁ ++ s :: P₂) ++ c :: S := by rw [hPS, hP12]
  have hnodes : (generate_cfg m).nodes =
      (P₁ ++ s :: P₂).flatMap nodeDecls ++ (nodeDecls c ++ S.flatMap nodeDecls) := by
    rw [generate_cfg_spec]
    show (walk m).flatMap nodeDecls = _
    rw [hwalk_split, List.flatMap_append, List.flatMap_cons]
  refine ⟨mk, lab, hmk, hlab, own_ne_child_label hcon hlab mk c.dump hmk, ?_, ?_, ?_⟩
  · rw [hnodes]
    apply pair_sublist_append
    · exact List.mem_flatMap.mpr
        ⟨s, List.mem_append_right _ (List.mem_cons_self _ _), hchild⟩
    · rw [hdecl]
      exact List.mem_append_left _ (List.mem_cons_self _ _)
  · have hfr : rest.filter (fun p => p.1 == Nat.repr c.ident) = [] :=
      List.filter_eq_nil_iff.mpr (by intro p hp; simpa using hrest_keys p hp)
    have hfS : (S.flatMap nodeDecls).filter (fun p => p.1 == Nat.repr c.ident) = [] :=
      List.filter_eq_nil_iff.mpr (by intro p hp; simpa using hS_keys p hp)
    have hfilter : (generate_cfg m).nodes.filter (fun p => p.1 == Nat.repr c.ident) =
        ((P₁ ++ s :: P₂).flatMap nodeDecls).filter (fun p => p.1 == Nat.repr c.ident)
          ++ [(Nat.repr c.ident, lab)] := by
      rw [hnodes, hdecl, List.filter_append, List.filter_append, hfS, List.filter_cons]
      simp [hfr]
    rw [lastLabel, hfilter, List.map_append]
    exact List.getLast?_concat _
  · intro g hg
    exact edge_of_cfgChild hcw hg

/-- Claim C10 witness: an `if` directly inside a `while` body is declared
once as `Statement: …` under the while and once as `If Condition: …` under
its own key; the rendered label is the if's own and the if keeps its edge. -/
theorem claim_C10_witness :
    ∃ mk lab, (mk = "Statement: " ∨ mk = "Else Statement: ") ∧
      ownLabel (Stmt.If 51 (Expr.mk "U") [Stmt.Other 52 "Pass" []] []) = some lab ∧
      mk ++ (Stmt.If 51 (Expr.mk "U") [Stmt.Other 52 "Pass" []] []).dump ≠ lab ∧
      [(Nat.repr 51, mk ++ (Stmt.If 51 (Expr.mk "U") [Stmt.Other 52 "Pass" []] []).dump),
       (Nat.repr 51, lab)].Sublist
        (generate_cfg [Stmt.While 50 (Expr.mk "T")
          [Stmt.If 51 (Expr.mk "U") [Stmt.Other 52 "Pass" []] []] []]).nodes ∧
      lastLabel (generate_cfg [Stmt.While 50 (Expr.mk "T")
          [Stmt.If 51 (Expr.mk "U") [Stmt.Other 52 "Pass" []] []] []])
        (Nat.repr 51) = some lab ∧
      ∀ g ∈ (Stmt.If 51 (Expr.mk "U") [Stmt.Other 52 "Pass" []] []).cfgChildren,
        (Nat.repr 51, Nat.repr g.ident) ∈
          (generate_cfg [Stmt.While 50 (Expr.mk "T")
            [Stmt.If 51 (Expr.mk "U") [Stmt.Other 52 "Pass" []] []] []]).edges :=
  claim_C10
    [Stmt.While 50 (Expr.mk "T") [Stmt.If 51 (Expr.mk "U") [Stmt.Other 52 "Pass" []] []] []]
    (by decide)
    (Stmt.While 50 (Expr.mk "T") [Stmt.If 51 (Expr.mk "U") [Stmt.Other 52 "Pass" []] []] [])
    (Stmt.If 51 (Expr.mk "U") [Stmt.Other 52 "Pass" []] [])
    (List.mem_cons_self _ _)
    (List.mem_cons_self _ _)
    rfl

end PyCFG
